import Mathlib

/-!
# Verification of the Dejavas simulation engine

A shallow embedding of the core simulation engine of the Dejavas
repository (`dejavas-backend`): agent opinion updates, influence
propagation, influence-network topology generation, population
construction, arena-health metrics and the adoption score.

Python floats are modelled as rationals (`ℚ`), Python ints as `ℤ`/`ℕ`,
Python lists as `List`, and every call to `random.*` is replaced by an
explicit oracle argument constrained by hypotheses that state exactly
the guarantees of the corresponding `random` primitive
(`random.uniform(a, b)` returns a value in `[a, b]`,
`random.sample(pop, k)` returns `k` distinct elements of `pop`,
`random.randint(a, b)` returns an integer in `[a, b]`).
-/

namespace Dejavas

/-- Python's `max(0, min(1, x))`, the clamp used for every opinion update
(`agents/__init__.py` line 94 and `simulation/__init__.py` line 266). -/
def clamp01 (x : ℚ) : ℚ := max 0 (min 1 x)

/-- The `Agent.process_feature` opinion update (`agents/__init__.py` line 94):
`self.current_opinion = max(0, min(1, self.current_opinion + analysis.opinion_shift))`. -/
def processOpinionUpdate (currentOpinion opinionShift : ℚ) : ℚ :=
  clamp01 (currentOpinion + opinionShift)

/-- The opinion shift caused by one influencer during propagation
(`simulation/__init__.py` line 265):
`opinion_shift = (influencer.current_opinion - agent.current_opinion) * influence_strength * 0.1`. -/
def influenceDelta (selfOpinion predOpinion weight : ℚ) : ℚ :=
  (predOpinion - selfOpinion) * weight * (1 / 10)

/-- The opinion after one influence-propagation step
(`simulation/__init__.py` line 266):
`agent.current_opinion = max(0, min(1, agent.current_opinion + opinion_shift))`. -/
def propagateStepOpinion (selfOpinion predOpinion weight : ℚ) : ℚ :=
  clamp01 (selfOpinion + influenceDelta selfOpinion predOpinion weight)

/-- One iteration of the `for influencer_name in influencers` loop
(`simulation/__init__.py` lines 260-268) acting on the pair
(current opinion of the agent, accumulated `influence_impact` of the
record).  The second component of `pred` is the edge weight
`weight(P→self)`, the first the influencer's current opinion. -/
def influenceStep (st : ℚ × ℚ) (pred : ℚ × ℚ) : ℚ × ℚ :=
  let delta := influenceDelta st.1 pred.1 pred.2
  (clamp01 (st.1 + delta), st.2 + |delta|)

/-- The whole `for influencer_name in influencers` loop
(`simulation/__init__.py` lines 260-268): fold of `influenceStep` over
the predecessor list, starting from the agent's opinion after
`process_feature` and the record's initial `influence_impact`. -/
def applyInfluencers (opinion impact : ℚ) (preds : List (ℚ × ℚ)) : ℚ × ℚ :=
  preds.foldl influenceStep (opinion, impact)

/-- Modelled from the spec's words (§4.3 step 2): chained sequential
propagation, "each successive delta is computed against the agent's
already-updated opinion from the prior predecessor", accumulating the
absolute value of each delta. -/
def chainedPropagation : ℚ → ℚ → List (ℚ × ℚ) → ℚ × ℚ
  | opinion, impact, [] => (opinion, impact)
  | opinion, impact, (predOpinion, weight) :: rest =>
      let delta := (predOpinion - opinion) * weight * (1 / 10)
      chainedPropagation (max 0 (min 1 (opinion + delta))) (impact + |delta|) rest

/-- The sum of the absolute opinion deltas along the chained propagation,
starting from a given opinion: the value the spec asserts the record's
influence-impact field to be. -/
def sumAbsDeltas : ℚ → List (ℚ × ℚ) → ℚ
  | _, [] => 0
  | opinion, (predOpinion, weight) :: rest =>
      let delta := (predOpinion - opinion) * weight * (1 / 10)
      |delta| + sumAbsDeltas (max 0 (min 1 (opinion + delta))) rest

/-- The propagation phase of `_run_single_round`
(`simulation/__init__.py` lines 255-270) restricted to opinions: the
agents are processed in population order (`for i, result in
enumerate(agent_results)`), and for each agent the inner loop
`applyInfluencers` runs over its predecessors in the influence graph,
reading the predecessors' *current* (live) opinions from
`self.agents`. -/
def propagationPhase (opinions : String → ℚ) (order : List String)
    (preds : String → List (String × ℚ)) : String → ℚ :=
  order.foldl
    (fun ops name =>
      let res := applyInfluencers (ops name) 0 ((preds name).map fun p => (ops p.1, p.2))
      fun n => if n = name then res.1 else ops n)
    opinions

/-- Modelled from the spec's words (§4.3 step 2): process each agent in
population order, replacing its opinion by the result of chained
sequential propagation over its predecessors, predecessor opinions read
from the already-updated state. -/
def propagationPhaseSpec : (String → ℚ) → List String → (String → List (String × ℚ)) → String → ℚ
  | ops, [], _ => ops
  | ops, a :: rest, preds =>
      let r := chainedPropagation (ops a) 0 ((preds a).map fun p => (ops p.1, p.2))
      propagationPhaseSpec (fun n => if n = a then r.1 else ops n) rest preds

lemma clamp01_nonneg (x : ℚ) : 0 ≤ clamp01 x := le_max_left 0 _

lemma clamp01_le_one (x : ℚ) : clamp01 x ≤ 1 :=
  max_le (by norm_num) (min_le_left 1 x)

lemma applyInfluencers_eq_chained (preds : List (ℚ × ℚ)) :
    ∀ opinion impact, applyInfluencers opinion impact preds =
      chainedPropagation opinion impact preds := by
  induction preds with
  | nil => intro opinion impact; rfl
  | cons p rest ih =>
      intro opinion impact
      obtain ⟨predOpinion, weight⟩ := p
      simp only [applyInfluencers, List.foldl_cons, chainedPropagation]
      exact ih _ _

lemma chainedPropagation_snd (preds : List (ℚ × ℚ)) :
    ∀ opinion impact, (chainedPropagation opinion impact preds).2 =
      impact + sumAbsDeltas opinion preds := by
  induction preds with
  | nil => intro opinion impact; simp [chainedPropagation, sumAbsDeltas]
  | cons p rest ih =>
      intro opinion impact
      obtain ⟨predOpinion, weight⟩ := p
      simp only [chainedPropagation, sumAbsDeltas]
      rw [ih]
      ring

/-- C1: every update path of an agent's opinion — the shift applied in
`process_feature` after a feature analysis, and every single
influence-propagation step inside a round — yields an opinion in
`[0, 1]`, for every current opinion, every opinion shift (in particular
any shift in `[-1, 1]`) and every edge weight: each assignment clamps
with `max(0, min(1, ·))`. -/
theorem opinion_clamped_after_every_update :
    (∀ currentOpinion opinionShift : ℚ,
        0 ≤ processOpinionUpdate currentOpinion opinionShift ∧
          processOpinionUpdate currentOpinion opinionShift ≤ 1) ∧
    (∀ selfOpinion predOpinion weight : ℚ,
        0 ≤ propagateStepOpinion selfOpinion predOpinion weight ∧
          propagateStepOpinion selfOpinion predOpinion weight ≤ 1) := by
  constructor
  · intro c s
    exact ⟨clamp01_nonneg _, clamp01_le_one _⟩
  · intro s p w
    exact ⟨clamp01_nonneg _, clamp01_le_one _⟩

/-- C2: the propagation phase of `_run_single_round` is exactly the
spec's chained sequential update: agents processed in population order,
and for each agent, each predecessor P contributes
`delta = (opinion(P) − opinion(self)) × weight(P→self) × 0.1` followed by
`opinion(self) = clamp(opinion(self) + delta, 0, 1)`, every successive
delta computed against the already-updated opinion (not the pre-round
opinion). -/
theorem propagation_is_chained_sequential
    (opinions : String → ℚ) (order : List String)
    (preds : String → List (String × ℚ)) :
    propagationPhase opinions order preds = propagationPhaseSpec opinions order preds := by
  induction order generalizing opinions with
  | nil => rfl
  | cons a rest ih =>
      have hstep :
          (fun n => if n = a then
              (applyInfluencers (opinions a) 0 ((preds a).map fun p => (opinions p.1, p.2))).1
            else opinions n)
          = (fun n => if n = a then
              (chainedPropagation (opinions a) 0 ((preds a).map fun p => (opinions p.1, p.2))).1
            else opinions n) := by
        funext n
        rw [applyInfluencers_eq_chained]
      calc propagationPhase opinions (a :: rest) preds
          = propagationPhase
              (fun n => if n = a then
                  (applyInfluencers (opinions a) 0 ((preds a).map fun p => (opinions p.1, p.2))).1
                else opinions n) rest preds := rfl
        _ = propagationPhaseSpec
              (fun n => if n = a then
                  (applyInfluencers (opinions a) 0 ((preds a).map fun p => (opinions p.1, p.2))).1
                else opinions n) rest preds := ih _
        _ = propagationPhaseSpec opinions (a :: rest) preds := by rw [hstep]; rfl

/-- The final `influence_impact` field of an interaction record: the
record produced by `Agent.process_feature` starts from the backend's
`analysis.influence_impact` (`agents/__init__.py` line 110; under the
fallback backend this is the agent's influence score,
`llm_integration.py` line 150), and `_run_single_round` accumulates
`abs(opinion_shift)` onto it for every predecessor
(`simulation/__init__.py` line 268). -/
def recordInfluenceImpact (analysisInfluenceImpact opinion : ℚ)
    (preds : List (ℚ × ℚ)) : ℚ :=
  (applyInfluencers opinion analysisInfluenceImpact preds).2

/-- C3 counterexample: the claim says the record's influence-impact field
equals exactly the sum of the absolute propagation deltas, hence 0 for an
agent with no predecessors.  But for an agent with no predecessors whose
analysis carried `influence_impact = 0.5` (the fallback backend's value
for the default influence score) the record's field is `0.5`, not the
sum `0`. -/
theorem influence_impact_not_sum_of_deltas :
    recordInfluenceImpact (1 / 2) (1 / 2) [] = 1 / 2 ∧
      sumAbsDeltas (1 / 2) [] = 0 ∧
      recordInfluenceImpact (1 / 2) (1 / 2) [] ≠ sumAbsDeltas (1 / 2) [] := by
  refine ⟨rfl, rfl, ?_⟩
  intro h
  rw [show recordInfluenceImpact (1 / 2) (1 / 2) [] = 1 / 2 from rfl,
    show sumAbsDeltas ((1 : ℚ) / 2) [] = 0 from rfl] at h
  norm_num at h

/-- C3 amended: the record's influence-impact field equals the backend's
`analysis.influence_impact` *plus* the sum of the absolute opinion deltas
caused by influence propagation; an agent with no predecessors keeps
exactly the backend's value. -/
theorem influence_impact_accumulates (analysisInfluenceImpact opinion : ℚ)
    (preds : List (ℚ × ℚ)) :
    recordInfluenceImpact analysisInfluenceImpact opinion preds =
      analysisInfluenceImpact + sumAbsDeltas opinion preds := by
  unfold recordInfluenceImpact
  rw [applyInfluencers_eq_chained, chainedPropagation_snd]

/-- Agent roles (`agents/__init__.py`, `class AgentType`). -/
inductive AgentType where
  | customer
  | competitor
  | influencer
  | internalTeam
deriving DecidableEq, Repr

/-- The slice of an `Agent` object the core simulation engine reads:
name, role, mutable opinion, genome influence score and attention-token
budget (`agents/__init__.py` lines 30-73). -/
structure AgentState where
  name : String
  agentType : AgentType
  currentOpinion : ℚ
  influenceScore : ℚ
  attentionTokens : ℤ
deriving DecidableEq, Repr

/-- Embeds `AdvancedSimulator._calculate_adoption_score`
(`simulation/__init__.py` lines 285-296): restrict to customer agents,
return 0 when there are none, otherwise the influence-score-weighted
opinion sum over the weight sum, times 100, guarding a zero total
weight with 0. -/
def calculateAdoptionScore (agents : List AgentState) : ℚ :=
  let customerAgents := agents.filter fun a => a.agentType == AgentType.customer
  if customerAgents.isEmpty then 0
  else
    let totalWeightedOpinion :=
      (customerAgents.map fun a => a.currentOpinion * a.influenceScore).sum
    let totalWeight := (customerAgents.map fun a => a.influenceScore).sum
    if 0 < totalWeight then totalWeightedOpinion / totalWeight * 100 else 0

/-- The influence-score-weighted mean opinion of a list of agents. -/
def weightedMeanOpinion (agents : List AgentState) : ℚ :=
  (agents.map fun a => a.currentOpinion * a.influenceScore).sum /
    (agents.map fun a => a.influenceScore).sum

/-- C4: for every final agent list whose opinions lie in `[0,1]` (the
clamping invariant) and whose influence scores are nonnegative, the
adoption score lies in `[0,100]`; it is exactly 0 when there are no
customer agents; and whenever the customers' total influence weight is
positive it equals the influence-score-weighted mean customer opinion
times 100. -/
theorem adoption_score_weighted_mean_and_bounds (agents : List AgentState)
    (hop : ∀ a ∈ agents, 0 ≤ a.currentOpinion ∧ a.currentOpinion ≤ 1)
    (hw : ∀ a ∈ agents, 0 ≤ a.influenceScore) :
    (0 ≤ calculateAdoptionScore agents ∧ calculateAdoptionScore agents ≤ 100) ∧
    ((agents.filter fun a => a.agentType == AgentType.customer) = [] →
      calculateAdoptionScore agents = 0) ∧
    (0 < ((agents.filter fun a => a.agentType == AgentType.customer).map
          fun a => a.influenceScore).sum →
      calculateAdoptionScore agents =
        weightedMeanOpinion (agents.filter fun a => a.agentType == AgentType.customer) * 100) := by
  set customers := agents.filter fun a => a.agentType == AgentType.customer with hcust
  have hmem : ∀ a ∈ customers, a ∈ agents := by
    intro a ha
    exact (List.mem_filter.mp ha).1
  have hnum_nonneg : 0 ≤ (customers.map fun a => a.currentOpinion * a.influenceScore).sum := by
    apply List.sum_nonneg
    intro x hx
    obtain ⟨a, ha, rfl⟩ := List.mem_map.mp hx
    exact mul_nonneg (hop a (hmem a ha)).1 (hw a (hmem a ha))
  have hnum_le : (customers.map fun a => a.currentOpinion * a.influenceScore).sum ≤
      (customers.map fun a => a.influenceScore).sum := by
    apply List.sum_le_sum
    intro a ha
    calc a.currentOpinion * a.influenceScore ≤ 1 * a.influenceScore := by
          exact mul_le_mul_of_nonneg_right (hop a (hmem a ha)).2 (hw a (hmem a ha))
      _ = a.influenceScore := one_mul _
  refine ⟨?_, ?_, ?_⟩
  · unfold calculateAdoptionScore
    rw [← hcust]
    by_cases hempty : customers.isEmpty
    · simp [hempty]
    · simp only [hempty, if_false]
      by_cases hpos : 0 < (customers.map fun a => a.influenceScore).sum
      · simp only [hpos, if_true]
        constructor
        · positivity
        · have h1 : (customers.map fun a => a.currentOpinion * a.influenceScore).sum /
              (customers.map fun a => a.influenceScore).sum ≤ 1 :=
            (div_le_one hpos).mpr hnum_le
          calc (customers.map fun a => a.currentOpinion * a.influenceScore).sum /
                (customers.map fun a => a.influenceScore).sum * 100 ≤ 1 * 100 := by
                exact mul_le_mul_of_nonneg_right h1 (by norm_num)
            _ = 100 := one_mul _
      · simp [hpos]
  · intro hnil
    unfold calculateAdoptionScore
    rw [← hcust, hnil]
    rfl
  · intro hpos
    unfold calculateAdoptionScore weightedMeanOpinion
    rw [← hcust]
    have hempty : ¬ customers.isEmpty := by
      intro h
      rw [List.isEmpty_iff.mp h] at hpos
      simp at hpos
    simp only [hempty, if_false, hpos, if_true]
    simp

/-- C4 witness: a single customer agent with opinion 3/4 and influence
score 1/2. -/
theorem adoption_score_witness :
    (0 ≤ calculateAdoptionScore [⟨"C", AgentType.customer, 3 / 4, 1 / 2, 100⟩] ∧
      calculateAdoptionScore [⟨"C", AgentType.customer, 3 / 4, 1 / 2, 100⟩] ≤ 100) :=
  (adoption_score_weighted_mean_and_bounds
    [⟨"C", AgentType.customer, 3 / 4, 1 / 2, 100⟩]
    (by intro a ha; simp at ha; subst ha; norm_num)
    (by intro a ha; simp at ha; subst ha; norm_num)).1

/-- The role-percentage configuration read by
`AdvancedSimulator.create_agent_population`; the internal-team
percentage present in the caller's config dict is never read (the
internal count is a remainder). -/
structure PopConfig where
  customerPercentage : ℤ
  competitorPercentage : ℤ
  influencerPercentage : ℤ
deriving DecidableEq, Repr

/-- Python's `int(...)` on a real value: truncation toward zero. -/
def truncToZero (q : ℚ) : ℤ := if 0 ≤ q then ⌊q⌋ else ⌈q⌉

/-- Embeds `int((config['customer_percentage'] / 100) * total_agents)` with
`total_agents = 20` (`simulation/__init__.py` line 177). -/
def numCustomers (c : PopConfig) : ℤ :=
  truncToZero ((c.customerPercentage : ℚ) / 100 * 20)

/-- Embeds line 178 of `simulation/__init__.py`. -/
def numCompetitors (c : PopConfig) : ℤ :=
  truncToZero ((c.competitorPercentage : ℚ) / 100 * 20)

/-- Embeds line 179 of `simulation/__init__.py`. -/
def numInfluencers (c : PopConfig) : ℤ :=
  truncToZero ((c.influencerPercentage : ℚ) / 100 * 20)

/-- Embeds `num_internal = total_agents - num_customers - num_competitors -
num_influencers` (`simulation/__init__.py` line 180). -/
def numInternal (c : PopConfig) : ℤ :=
  20 - numCustomers c - numCompetitors c - numInfluencers c

/-- The number of agents actually appended by the four `for _ in
range(n)` loops (`simulation/__init__.py` lines 183-194): `range` of a
negative count is empty, so each loop contributes `max(n, 0)` agents. -/
def populationSize (c : PopConfig) : ℕ :=
  (numCustomers c).toNat + (numCompetitors c).toNat +
    (numInfluencers c).toNat + (numInternal c).toNat

/-- C5 counterexample: for percentages `{100, 100, 100}` the three
truncated counts are 20 each, the internal remainder is `-40`, the
internal loop runs zero times, and the population has 60 agents — not
the configured total of 20. -/
theorem population_size_counterexample :
    numCustomers ⟨100, 100, 100⟩ = 20 ∧
      numInternal ⟨100, 100, 100⟩ = -40 ∧
      populationSize ⟨100, 100, 100⟩ = 60 ∧
      populationSize ⟨100, 100, 100⟩ ≠ 20 := by
  have h1 : numCustomers ⟨100, 100, 100⟩ = 20 := by
    unfold numCustomers truncToZero
    norm_num
  have h2 : numCompetitors ⟨100, 100, 100⟩ = 20 := by
    unfold numCompetitors truncToZero
    norm_num
  have h3 : numInfluencers ⟨100, 100, 100⟩ = 20 := by
    unfold numInfluencers truncToZero
    norm_num
  have h4 : numInternal ⟨100, 100, 100⟩ = -40 := by
    unfold numInternal
    rw [h1, h2, h3]
    norm_num
  have h5 : populationSize ⟨100, 100, 100⟩ = 60 := by
    unfold populationSize
    rw [h1, h2, h3, h4]
    rfl
  exact ⟨h1, h4, h5, by rw [h5]; norm_num⟩

/-- C5 amended: the builder truncates `(percentage/100) × 20` for the
customer, competitor and influencer counts and assigns internal_team the
remainder `20` minus those counts; *whenever the four counts are
nonnegative* (in particular whenever the three truncated counts sum to
at most 20) the produced population has exactly 20 agents; and for
percentages `{25, 25, 25, 25}` the counts are `{5, 5, 5, 5}`. -/
theorem population_size_amended :
    (∀ c : PopConfig, 0 ≤ numCustomers c → 0 ≤ numCompetitors c →
      0 ≤ numInfluencers c → 0 ≤ numInternal c → populationSize c = 20) ∧
    (numCustomers ⟨25, 25, 25⟩ = 5 ∧ numCompetitors ⟨25, 25, 25⟩ = 5 ∧
      numInfluencers ⟨25, 25, 25⟩ = 5 ∧ numInternal ⟨25, 25, 25⟩ = 5) := by
  constructor
  · intro c h1 h2 h3 h4
    unfold populationSize numInternal at *
    omega
  · have h1 : numCustomers ⟨25, 25, 25⟩ = 5 := by
      unfold numCustomers truncToZero
      norm_num
    have h2 : numCompetitors ⟨25, 25, 25⟩ = 5 := by
      unfold numCompetitors truncToZero
      norm_num
    have h3 : numInfluencers ⟨25, 25, 25⟩ = 5 := by
      unfold numInfluencers truncToZero
      norm_num
    refine ⟨h1, h2, h3, ?_⟩
    unfold numInternal
    rw [h1, h2, h3]
    norm_num

/-- C5 witness: the amended sum-to-20 statement applied to the
`{25, 25, 25, 25}` configuration. -/
theorem population_size_witness : populationSize ⟨25, 25, 25⟩ = 20 :=
  population_size_amended.1 ⟨25, 25, 25⟩
    (by unfold numCustomers truncToZero; norm_num)
    (by unfold numCompetitors truncToZero; norm_num)
    (by unfold numInfluencers truncToZero; norm_num)
    (by unfold numInternal numCustomers numCompetitors numInfluencers truncToZero; norm_num)

/-- A directed weighted edge of the influence graph
(`self.graph.add_edge(src, tgt, weight=w)`). -/
structure Edge where
  src : String
  tgt : String
  weight : ℚ
deriving DecidableEq, Repr

/-- Out-degree of a node in the constructed edge list.  (Under the
contracts below no duplicate (src, tgt) pair is ever produced, so the
edge count coincides with the out-degree of the `networkx` digraph.) -/
def outDegree (edges : List Edge) (nm : String) : ℕ :=
  edges.countP fun e => e.src == nm

/-- Embeds `sorted(agent_names, key=lambda x: influence_score, reverse=True)`
(`simulation/__init__.py` lines 129-131): stable sort, descending by
influence score. -/
def sortByInfluenceDesc (agents : List AgentState) : List AgentState :=
  agents.mergeSort fun a b => decide (b.influenceScore ≤ a.influenceScore)

/-- Embeds `num_influencers = max(1, len(sorted_agents) // 5)`
(`simulation/__init__.py` line 134). -/
def numInfluencersRF (n : ℕ) : ℕ := max 1 (n / 5)

/-- Embeds `influencers = sorted_agents[:num_influencers]`
(`simulation/__init__.py` line 135). -/
def rfInfluencers (agents : List AgentState) : List AgentState :=
  (sortByInfluenceDesc agents).take (numInfluencersRF agents.length)

/-- Embeds `followers = sorted_agents[num_influencers:]`
(`simulation/__init__.py` line 136). -/
def rfFollowers (agents : List AgentState) : List AgentState :=
  (sortByInfluenceDesc agents).drop (numInfluencersRF agents.length)

/-- Embeds `self.graph.add_edge(follower, influencer, weight=...)`, weight being the influencer's influence score
(`simulation/__init__.py` lines 144-145). -/
def rfMkEdge (f inf : AgentState) : Edge := ⟨f.name, inf.name, inf.influenceScore⟩

/-- The real-follower edge construction (`simulation/__init__.py` lines
139-145): each follower, paired with its randomly sampled list of
followed influencers (the oracle `follows`), contributes one edge per
followed influencer, weighted by that influencer's influence score. -/
def realFollowerEdges (agents : List AgentState)
    (follows : List (List AgentState)) : List Edge :=
  ((rfFollowers agents).zip follows).flatMap fun fc =>
    fc.2.map (rfMkEdge fc.1)

/-- The guarantees of the random draws in the real-follower branch:
one choice list per follower; `num_follows = random.randint(1, min(3,
len(influencers)))` gives each list a length in `[1, min(3,
num_influencers)]`; `random.sample(influencers, num_follows)` returns
that many distinct elements of the influencer list. -/
def RealFollowerContract (agents : List AgentState)
    (follows : List (List AgentState)) : Prop :=
  follows.length = (rfFollowers agents).length ∧
    ∀ ch ∈ follows, 1 ≤ ch.length ∧ ch.length ≤ min 3 (rfInfluencers agents).length ∧
      ch.Nodup ∧ ∀ x ∈ ch, x ∈ rfInfluencers agents

/-- The loose-network edge construction (`simulation/__init__.py` lines
117-124): each agent, paired with its random selection of (target,
weight) pairs (the oracle `choices`), contributes one edge per chosen
target. -/
def looseMkEdge (a : AgentState) (tw : AgentState × ℚ) : Edge :=
  ⟨a.name, tw.1.name, tw.2⟩

/-- Edge list of the loose-network topology, see the comment above
`looseMkEdge`. -/
def looseEdges (agents : List AgentState)
    (choices : List (List (AgentState × ℚ))) : List Edge :=
  (agents.zip choices).flatMap fun p =>
    p.2.map (looseMkEdge p.1)

/-- The guarantees of the random draws in the loose-network branch:
one choice list per agent; `num_connections = random.randint(2, 4)`,
`random.sample([n for n in agent_names if n != agent_name],
min(num_connections, len(agent_names) - 1))` returns that many distinct
other agents, and `random.uniform(0.1, 1.0)` gives each edge a weight
in `[0.1, 1]`. -/
def LooseContract (agents : List AgentState)
    (choices : List (List (AgentState × ℚ))) : Prop :=
  choices.length = agents.length ∧
    ∀ p ∈ agents.zip choices,
      (∃ k, 2 ≤ k ∧ k ≤ 4 ∧ p.2.length = min k (agents.length - 1)) ∧
        (p.2.map Prod.fst).Nodup ∧
        ∀ tw ∈ p.2, tw.1 ∈ agents ∧ tw.1 ≠ p.1 ∧ 1 / 10 ≤ tw.2 ∧ tw.2 ≤ 1

/-- The echo-chamber edge construction (`simulation/__init__.py` lines
103-113): for every ordered pair of distinct positions `(i, j)`, with
`similarity = 1 - abs(opinion_i - opinion_j)`, the Bernoulli draw
`random.random() < similarity * 0.3` (the oracle `coin`) decides whether
the edge `i → j` with weight `similarity` is added. -/
def echoEdges (agents : List AgentState) (coin : ℕ → ℕ → Bool) : List Edge :=
  agents.enum.flatMap fun ia =>
    agents.enum.filterMap fun jb =>
      if ia.1 ≠ jb.1 ∧ coin ia.1 jb.1 then
        some ⟨ia.2.name, jb.2.name,
          1 - |ia.2.currentOpinion - jb.2.currentOpinion|⟩
      else none

lemma sortByInfluenceDesc_perm (agents : List AgentState) :
    (sortByInfluenceDesc agents).Perm agents :=
  List.mergeSort_perm agents _

lemma sorted_names_nodup {agents : List AgentState}
    (hnames : (agents.map AgentState.name).Nodup) :
    ((sortByInfluenceDesc agents).map AgentState.name).Nodup :=
  hnames.perm ((sortByInfluenceDesc_perm agents).map AgentState.name).symm

lemma rf_follower_not_influencer {agents : List AgentState}
    (hnames : (agents.map AgentState.name).Nodup)
    {f : AgentState} (hf : f ∈ rfFollowers agents) :
    f.name ∉ (rfInfluencers agents).map AgentState.name := by
  intro hmem
  have hdisj : ((sortByInfluenceDesc agents).map AgentState.name).take
        (numInfluencersRF agents.length) |>.Disjoint
      (((sortByInfluenceDesc agents).map AgentState.name).drop
        (numInfluencersRF agents.length)) :=
    List.disjoint_take_drop (sorted_names_nodup hnames) le_rfl
  rw [← List.map_take] at hdisj
  rw [← List.map_drop] at hdisj
  exact hdisj (by simpa [rfInfluencers] using hmem)
    (List.mem_map_of_mem AgentState.name (by simpa [rfFollowers] using hf))

lemma countP_map_const_src {β : Type} (mk : AgentState → β → Edge)
    (hsrc : ∀ a b, (mk a b).src = a.name) (a : AgentState) (l : List β) (nm : String) :
    (l.map (mk a)).countP (fun e => e.src == nm) =
      if a.name = nm then l.length else 0 := by
  rw [List.countP_map]
  by_cases h : a.name = nm
  · simp only [h, if_true]
    have : ((fun e => e.src == nm) ∘ mk a) = fun _ => true := by
      funext b
      simp [Function.comp, hsrc, h]
    rw [this, List.countP_true]
  · simp only [h, if_false]
    have : ((fun e => e.src == nm) ∘ mk a) = fun _ => false := by
      funext b
      simp [Function.comp, hsrc, h]
    rw [this, List.countP_false]
    rfl

lemma outDegree_zip_flatMap {β : Type} (mk : AgentState → β → Edge)
    (hsrc : ∀ a b, (mk a b).src = a.name)
    (pairs : List (AgentState × List β)) (nm : String) :
    outDegree (pairs.flatMap fun p => p.2.map (mk p.1)) nm =
      ((pairs.filter fun q => q.1.name == nm).map fun q => q.2.length).sum := by
  induction pairs with
  | nil => rfl
  | cons hd tl ih =>
      rw [List.flatMap_cons]
      unfold outDegree at *
      rw [List.countP_append, ih, List.filter_cons]
      by_cases h : hd.1.name = nm
      · simp only [h, beq_self_eq_true, if_true, List.map_cons, List.sum_cons]
        rw [countP_map_const_src mk hsrc, if_pos h]
      · have hb : (hd.1.name == nm) = false := by
          simpa using h
        simp only [hb, Bool.false_eq_true, if_false]
        rw [countP_map_const_src mk hsrc, if_neg h]
        simp

lemma filtered_source_sum {β : Type} (pairs : List (AgentState × List β))
    (hnodup : (pairs.map fun p => p.1.name).Nodup) :
    ∀ p ∈ pairs,
      ((pairs.filter fun q => q.1.name == p.1.name).map fun q => q.2.length).sum =
        p.2.length := by
  induction pairs with
  | nil => intro p hp; cases hp
  | cons hd tl ih =>
      intro p hp
      rw [List.map_cons, List.nodup_cons] at hnodup
      rcases List.mem_cons.mp hp with rfl | hp'
      · rw [List.filter_cons, if_pos (by simp)]
        have htl : (tl.filter fun q => q.1.name == p.1.name) = [] := by
          rw [List.filter_eq_nil_iff]
          intro q hq hqeq
          have hq' : q.1.name = p.1.name := by simpa using hqeq
          exact hnodup.1 (hq' ▸ List.mem_map_of_mem (fun r => r.1.name) hq)
        rw [htl]
        simp
      · have hne : hd.1.name ≠ p.1.name := by
          intro heq
          exact hnodup.1 (heq ▸ List.mem_map_of_mem (fun r => r.1.name) hp')
        rw [List.filter_cons, if_neg (by simpa using hne)]
        exact ih hnodup.2 p hp'

lemma rf_influencers_names_nodup {agents : List AgentState}
    (hnames : (agents.map AgentState.name).Nodup) :
    ((rfInfluencers agents).map AgentState.name).Nodup := by
  unfold rfInfluencers
  rw [List.map_take]
  exact (List.take_sublist _ _).nodup (sorted_names_nodup hnames)

lemma rf_followers_names_nodup {agents : List AgentState}
    (hnames : (agents.map AgentState.name).Nodup) :
    ((rfFollowers agents).map AgentState.name).Nodup := by
  unfold rfFollowers
  rw [List.map_drop]
  exact (List.drop_sublist _ _).nodup (sorted_names_nodup hnames)

lemma rf_influencer_not_follower {agents : List AgentState}
    (hnames : (agents.map AgentState.name).Nodup)
    {inf : AgentState} (hinf : inf ∈ rfInfluencers agents) :
    inf.name ∉ (rfFollowers agents).map AgentState.name := by
  intro hmem
  have hdisj : ((sortByInfluenceDesc agents).map AgentState.name).take
        (numInfluencersRF agents.length) |>.Disjoint
      (((sortByInfluenceDesc agents).map AgentState.name).drop
        (numInfluencersRF agents.length)) :=
    List.disjoint_take_drop (sorted_names_nodup hnames) le_rfl
  rw [← List.map_take] at hdisj
  rw [← List.map_drop] at hdisj
  exact hdisj (List.mem_map_of_mem AgentState.name (by simpa [rfInfluencers] using hinf))
    (by simpa [rfFollowers] using hmem)

/-- C6: structure of the real-follower topology.  The population is
stably sorted descending by influence score; under the random-draw
contract, every follower's out-degree is between 1 and 3; every edge
goes from a follower to an influencer, carries the followed influencer's
influence score as weight, and no influencer-to-influencer or
follower-to-follower edge exists; and the influencers followed by any
single follower are pairwise distinct. -/
theorem real_follower_topology_structure (agents : List AgentState)
    (follows : List (List AgentState))
    (hnames : (agents.map AgentState.name).Nodup)
    (hc : RealFollowerContract agents follows) :
    ((sortByInfluenceDesc agents).Pairwise fun a b =>
        b.influenceScore ≤ a.influenceScore) ∧
    (sortByInfluenceDesc agents).Perm agents ∧
    (∀ f ∈ rfFollowers agents,
        1 ≤ outDegree (realFollowerEdges agents follows) f.name ∧
          outDegree (realFollowerEdges agents follows) f.name ≤ 3) ∧
    (∀ e ∈ realFollowerEdges agents follows,
        e.src ∈ (rfFollowers agents).map AgentState.name ∧
          (∃ inf ∈ rfInfluencers agents,
            e.tgt = inf.name ∧ e.weight = inf.influenceScore) ∧
          e.src ∉ (rfInfluencers agents).map AgentState.name ∧
          e.tgt ∉ (rfFollowers agents).map AgentState.name) ∧
    (∀ p ∈ (rfFollowers agents).zip follows, (p.2.map AgentState.name).Nodup) := by
  obtain ⟨hlen, hch⟩ := hc
  have hfst : ((rfFollowers agents).zip follows).map Prod.fst = rfFollowers agents :=
    List.map_fst_zip _ _ (le_of_eq hlen.symm)
  have hsrcnames : (((rfFollowers agents).zip follows).map fun p => p.1.name).Nodup := by
    have h2 := rf_followers_names_nodup hnames
    rw [← hfst, List.map_map] at h2
    exact h2
  refine ⟨?_, sortByInfluenceDesc_perm agents, ?_, ?_, ?_⟩
  · have hs := @List.sorted_mergeSort AgentState
      (fun a b : AgentState => decide (b.influenceScore ≤ a.influenceScore))
      (fun a b c hab hbc => by
        simp only [decide_eq_true_eq] at *
        exact le_trans hbc hab)
      (fun a b => by
        simp only [Bool.or_eq_true, decide_eq_true_eq]
        exact le_total b.influenceScore a.influenceScore)
      agents
    exact hs.imp fun h => of_decide_eq_true h
  · intro f hf
    obtain ⟨p, hp, hpf⟩ := List.mem_map.mp (hfst ▸ hf)
    have hdeg : outDegree (realFollowerEdges agents follows) p.1.name = p.2.length := by
      unfold realFollowerEdges
      rw [outDegree_zip_flatMap rfMkEdge (fun a b => rfl)]
      exact filtered_source_sum _ hsrcnames p hp
    have hfollows : p.2 ∈ follows := (List.of_mem_zip hp).2
    obtain ⟨h1, h2, _, _⟩ := hch p.2 hfollows
    rw [hpf] at hdeg
    rw [hdeg]
    exact ⟨h1, le_trans h2 (min_le_left _ _)⟩
  · intro e he
    obtain ⟨p, hp, hep⟩ := List.mem_flatMap.mp he
    obtain ⟨inf, hinf, hedef⟩ := List.mem_map.mp hep
    have hfollower : p.1 ∈ rfFollowers agents := (List.of_mem_zip hp).1
    have hfollows : p.2 ∈ follows := (List.of_mem_zip hp).2
    have hinf_mem : inf ∈ rfInfluencers agents := (hch p.2 hfollows).2.2.2 inf hinf
    subst hedef
    refine ⟨List.mem_map_of_mem AgentState.name hfollower,
      ⟨inf, hinf_mem, rfl, rfl⟩, ?_, ?_⟩
    · exact rf_follower_not_influencer hnames hfollower
    · exact rf_influencer_not_follower hnames hinf_mem
  · intro p hp
    have hfollows : p.2 ∈ follows := (List.of_mem_zip hp).2
    obtain ⟨_, _, hnd, hsub⟩ := hch p.2 hfollows
    exact hnd.map_on fun x hx y hy hxy =>
      List.inj_on_of_nodup_map (rf_influencers_names_nodup hnames)
        (hsub x hx) (hsub y hy) hxy

/-- A two-element name-distinct population used for concrete
instantiations. -/
def agentA : AgentState := ⟨"A", AgentType.customer, 1 / 2, 1 / 2, 100⟩

/-- See `agentA`. -/
def agentB : AgentState := ⟨"B", AgentType.customer, 1 / 2, 3 / 4, 100⟩

/-- A singleton-population influencer agent used for concrete
instantiations. -/
def agentC : AgentState := ⟨"C", AgentType.influencer, 1 / 2, 1, 150⟩

/-- C7 counterexample: the claim puts every out-degree in
`[2, min(4, population − 1)]` for *any* population; but for a population
of 2 the sample size is `min(num_connections, 1) = 1`, so under a
perfectly valid random draw (`num_connections = 2`) the out-degree is 1,
which is below the claimed lower bound 2 (indeed the claimed interval
`[2, min(4, 1)]` is empty). -/
theorem loose_degree_counterexample :
    LooseContract [agentA, agentB] [[(agentB, 1 / 2)], [(agentA, 1 / 2)]] ∧
      outDegree (looseEdges [agentA, agentB]
        [[(agentB, 1 / 2)], [(agentA, 1 / 2)]]) "A" = 1 ∧
      ¬ (2 ≤ outDegree (looseEdges [agentA, agentB]
        [[(agentB, 1 / 2)], [(agentA, 1 / 2)]]) "A") := by
  refine ⟨⟨rfl, ?_⟩, ?_, ?_⟩
  · intro p hp
    simp only [List.zip_cons_cons, List.zip_nil_right, List.mem_cons,
      List.not_mem_nil, or_false] at hp
    rcases hp with rfl | rfl
    · refine ⟨⟨2, by norm_num, by norm_num, by simp⟩, by simp, ?_⟩
      intro tw htw
      simp only [List.mem_singleton] at htw
      subst htw
      refine ⟨by simp, ?_, by norm_num, by norm_num⟩
      simp [agentA, agentB]
    · refine ⟨⟨2, by norm_num, by norm_num, by simp⟩, by simp, ?_⟩
      intro tw htw
      simp only [List.mem_singleton] at htw
      subst htw
      refine ⟨by simp, ?_, by norm_num, by norm_num⟩
      simp [agentA, agentB]
  · rfl
  · rw [show outDegree (looseEdges [agentA, agentB]
      [[(agentB, 1 / 2)], [(agentA, 1 / 2)]]) "A" = 1 from rfl]
    norm_num

/-- C7 amended: under the loose-network topology, every agent's
out-degree lies in `[min(2, population − 1), min(4, population − 1)]`
(for populations of at least 3 this is the claim's
`[2, min(4, population − 1)]`), and each agent's edges go to distinct
other agents. -/
theorem loose_degree_amended (agents : List AgentState)
    (choices : List (List (AgentState × ℚ)))
    (hnames : (agents.map AgentState.name).Nodup)
    (hc : LooseContract agents choices) :
    (∀ a ∈ agents,
        min 2 (agents.length - 1) ≤ outDegree (looseEdges agents choices) a.name ∧
          outDegree (looseEdges agents choices) a.name ≤ min 4 (agents.length - 1)) ∧
    (∀ p ∈ agents.zip choices,
        (p.2.map fun tw => tw.1.name).Nodup ∧
          ∀ tw ∈ p.2, tw.1.name ≠ p.1.name) := by
  obtain ⟨hlen, hch⟩ := hc
  have hfst : (agents.zip choices).map Prod.fst = agents :=
    List.map_fst_zip _ _ (le_of_eq hlen.symm)
  have hsrcnames : ((agents.zip choices).map fun p => p.1.name).Nodup := by
    have h2 := hnames
    rw [← hfst, List.map_map] at h2
    exact h2
  constructor
  · intro a ha
    obtain ⟨p, hp, hpa⟩ := List.mem_map.mp (hfst ▸ ha)
    have hdeg : outDegree (looseEdges agents choices) p.1.name = p.2.length := by
      unfold looseEdges
      rw [outDegree_zip_flatMap looseMkEdge (fun a b => rfl)]
      exact filtered_source_sum _ hsrcnames p hp
    obtain ⟨⟨k, hk2, hk4, hklen⟩, _, _⟩ := hch p hp
    rw [hpa] at hdeg
    rw [hdeg, hklen]
    omega
  · intro p hp
    obtain ⟨_, hnd, htw⟩ := hch p hp
    have hmem : p.1 ∈ agents := (List.of_mem_zip hp).1
    constructor
    · have : (p.2.map fun tw => tw.1.name) = (p.2.map Prod.fst).map AgentState.name := by
        rw [List.map_map]
        exact rfl
      rw [this]
      exact hnd.map_on fun x hx y hy hxy => by
        obtain ⟨tx, htx, rfl⟩ := List.mem_map.mp hx
        obtain ⟨ty, hty, rfl⟩ := List.mem_map.mp hy
        exact List.inj_on_of_nodup_map hnames
          (htw tx htx).1 (htw ty hty).1 hxy
    · intro tw htws heq
      exact (htw tw htws).2.1
        (List.inj_on_of_nodup_map hnames (htw tw htws).1 hmem heq)

/-- C7 witness: population `[A, B]` with the draws of
`loose_degree_counterexample`; agent `A`'s out-degree is within the
amended interval `[min(2, 1), min(4, 1)] = [1, 1]`. -/
theorem loose_degree_witness :
    min 2 ([agentA, agentB].length - 1) ≤
        outDegree (looseEdges [agentA, agentB]
          [[(agentB, 1 / 2)], [(agentA, 1 / 2)]]) "A" ∧
      outDegree (looseEdges [agentA, agentB]
          [[(agentB, 1 / 2)], [(agentA, 1 / 2)]]) "A" ≤
        min 4 ([agentA, agentB].length - 1) := by
  have happ := (loose_degree_amended [agentA, agentB]
    [[(agentB, 1 / 2)], [(agentA, 1 / 2)]]
    (by simp [agentA, agentB])
    ⟨rfl, by
      intro p hp
      simp only [List.zip_cons_cons, List.zip_nil_right, List.mem_cons,
        List.not_mem_nil, or_false] at hp
      rcases hp with rfl | rfl
      · refine ⟨⟨2, by norm_num, by norm_num, by simp⟩, by simp, ?_⟩
        intro tw htw
        simp only [List.mem_singleton] at htw
        subst htw
        exact ⟨by simp, by simp [agentA, agentB], by norm_num, by norm_num⟩
      · refine ⟨⟨2, by norm_num, by norm_num, by simp⟩, by simp, ?_⟩
        intro tw htw
        simp only [List.mem_singleton] at htw
        subst htw
        exact ⟨by simp, by simp [agentA, agentB], by norm_num, by norm_num⟩⟩).1
  have hA := happ agentA (by simp)
  simpa [agentA] using hA

lemma looseContract_AB :
    LooseContract [agentA, agentB] [[(agentB, 1 / 2)], [(agentA, 1 / 2)]] := by
  refine ⟨rfl, ?_⟩
  intro p hp
  simp only [List.zip_cons_cons, List.zip_nil_right, List.mem_cons,
    List.not_mem_nil, or_false] at hp
  rcases hp with rfl | rfl
  · refine ⟨⟨2, by norm_num, by norm_num, by simp⟩, by simp, ?_⟩
    intro tw htw
    simp only [List.mem_singleton] at htw
    subst htw
    exact ⟨by simp, by simp [agentA, agentB], by norm_num, by norm_num⟩
  · refine ⟨⟨2, by norm_num, by norm_num, by simp⟩, by simp, ?_⟩
    intro tw htw
    simp only [List.mem_singleton] at htw
    subst htw
    exact ⟨by simp, by simp [agentA, agentB], by norm_num, by norm_num⟩

lemma realFollowerContract_C : RealFollowerContract [agentC] [] := by
  constructor
  · simp [rfFollowers, sortByInfluenceDesc, numInfluencersRF, List.mergeSort_singleton]
  · intro ch hch
    cases hch

/-- C8: every influence graph built by any of the three topology
strategies from an initial population (distinct agent names, all
opinions at the neutral 0.5 starting value, positive influence scores as
produced by every factory, and random draws obeying the `random` module
contracts) contains no self-loop, and every edge has weight strictly
greater than 0. -/
theorem no_self_loops_and_positive_weights
    (echoAgents looseAgents rfAgents : List AgentState)
    (coin : ℕ → ℕ → Bool)
    (choices : List (List (AgentState × ℚ)))
    (follows : List (List AgentState))
    (hen : (echoAgents.map AgentState.name).Nodup)
    (heo : ∀ a ∈ echoAgents, a.currentOpinion = 1 / 2)
    (hln : (looseAgents.map AgentState.name).Nodup)
    (hlc : LooseContract looseAgents choices)
    (hrn : (rfAgents.map AgentState.name).Nodup)
    (hrs : ∀ a ∈ rfAgents, 0 < a.influenceScore)
    (hrc : RealFollowerContract rfAgents follows) :
    (∀ e ∈ echoEdges echoAgents coin, e.src ≠ e.tgt ∧ 0 < e.weight) ∧
    (∀ e ∈ looseEdges looseAgents choices, e.src ≠ e.tgt ∧ 0 < e.weight) ∧
    (∀ e ∈ realFollowerEdges rfAgents follows, e.src ≠ e.tgt ∧ 0 < e.weight) := by
  refine ⟨?_, ?_, ?_⟩
  · intro e he
    obtain ⟨ia, hia, he2⟩ := List.mem_flatMap.mp he
    obtain ⟨jb, hjb, he3⟩ := List.mem_filterMap.mp he2
    obtain ⟨i, a⟩ := ia
    obtain ⟨j, b⟩ := jb
    rw [Option.ite_none_right_eq_some] at he3
    obtain ⟨⟨hij, _⟩, hedef⟩ := he3
    rw [Option.some_inj] at hedef
    obtain ⟨hi, ha⟩ := List.mem_enum hia
    obtain ⟨hj, hb⟩ := List.mem_enum hjb
    subst hedef
    constructor
    · intro heq
      simp only at heq
      apply hij
      have hmap : i < (echoAgents.map AgentState.name).length ∧
          j < (echoAgents.map AgentState.name).length := by
        rw [List.length_map]
        exact ⟨hi, hj⟩
      obtain ⟨hmi, hmj⟩ := hmap
      have : (echoAgents.map AgentState.name)[i] =
          (echoAgents.map AgentState.name)[j] := by
        rw [List.getElem_map, List.getElem_map, ← ha, ← hb]
        exact heq
      exact hen.getElem_inj_iff.mp this
    · have hamem : a ∈ echoAgents := ha ▸ List.getElem_mem hi
      have hbmem : b ∈ echoAgents := hb ▸ List.getElem_mem hj
      simp only
      rw [heo a hamem, heo b hbmem]
      norm_num
  · intro e he
    obtain ⟨p, hp, hep⟩ := List.mem_flatMap.mp he
    obtain ⟨tw, htwm, hedef⟩ := List.mem_map.mp hep
    obtain ⟨_, _, htw⟩ := hlc.2 p hp
    obtain ⟨tmem, tne, hw1, _⟩ := htw tw htwm
    have hmem : p.1 ∈ looseAgents := (List.of_mem_zip hp).1
    subst hedef
    constructor
    · intro heq
      exact tne (List.inj_on_of_nodup_map hln tmem hmem heq.symm)
    · exact lt_of_lt_of_le (by norm_num) hw1
  · intro e he
    obtain ⟨p, hp, hep⟩ := List.mem_flatMap.mp he
    obtain ⟨inf, hinfm, hedef⟩ := List.mem_map.mp hep
    have hfollower : p.1 ∈ rfFollowers rfAgents := (List.of_mem_zip hp).1
    have hfollows : p.2 ∈ follows := (List.of_mem_zip hp).2
    have hinf_mem : inf ∈ rfInfluencers rfAgents := (hrc.2 p.2 hfollows).2.2.2 inf hinfm
    subst hedef
    constructor
    · intro heq
      simp only [rfMkEdge] at heq
      apply rf_follower_not_influencer hrn hfollower
      rw [heq]
      exact List.mem_map_of_mem AgentState.name hinf_mem
    · have : inf ∈ rfAgents := by
        have h1 : inf ∈ sortByInfluenceDesc rfAgents :=
          List.mem_of_mem_take hinf_mem
        exact (sortByInfluenceDesc_perm rfAgents).mem_iff.mp h1
      exact hrs inf this

/-- C8 witness: the loose-network graph over `[A, B]` with the concrete
draws of `looseContract_AB` contains the edge `A → B` with weight 1/2;
applied to it, it is not a self-loop and has positive weight. -/
theorem no_self_loops_witness :
    (Edge.mk "A" "B" (1 / 2)).src ≠ (Edge.mk "A" "B" (1 / 2)).tgt ∧
      0 < (Edge.mk "A" "B" (1 / 2)).weight :=
  (no_self_loops_and_positive_weights [agentA, agentB] [agentA, agentB] [agentC]
    (fun _ _ => true) [[(agentB, 1 / 2)], [(agentA, 1 / 2)]] []
    (by simp [agentA, agentB])
    (by
      intro a ha
      simp only [List.mem_cons, List.not_mem_nil, or_false] at ha
      rcases ha with rfl | rfl
      · rfl
      · rfl)
    (by simp [agentA, agentB])
    looseContract_AB
    (by simp [agentC])
    (by
      intro a ha
      simp only [List.mem_singleton] at ha
      subst ha
      norm_num [agentC])
    realFollowerContract_C).2.1
    ⟨"A", "B", 1 / 2⟩ (List.mem_cons_self _ _)

/-- C6 witness: the real-follower structure theorem applied to the
singleton population `[C]` with the empty draw list (the single agent is
the influencer, there are no followers). -/
theorem real_follower_witness : (sortByInfluenceDesc [agentC]).Perm [agentC] :=
  (real_follower_topology_structure [agentC] []
    (by simp [agentC]) realFollowerContract_C).2.1

/-- The interaction record built by `Agent.process_feature`
(`agents/__init__.py` lines 102-111).  The returned dict has the keys
`agent_name`, `agent_type`, `opinion`, `tokens_spent`, `reasoning`,
`objections`, `suggestions` and `influence_impact`; the *absence* of a
`target_agent` key is modelled by an `Option` field that the
constructor never sets (see `mkProcessFeatureRecord`). -/
structure InteractionRecord where
  agentName : String
  agentType : AgentType
  opinion : ℚ
  tokensSpent : ℤ
  reasoning : String
  objections : List String
  suggestions : List String
  influenceImpact : ℚ
  targetAgent : Option String

/-- The dict literal returned by `Agent.process_feature`
(`agents/__init__.py` lines 102-111): it contains an `agent_name` key
but no `target_agent` key, so `targetAgent := none`. -/
def mkProcessFeatureRecord (a : AgentState) (newOpinion : ℚ) (tokensSpent : ℤ)
    (reasoning : String) (objections suggestions : List String)
    (influenceImpact : ℚ) : InteractionRecord :=
  ⟨a.name, a.agentType, newOpinion, tokensSpent, reasoning, objections,
    suggestions, influenceImpact, none⟩

/-- Embeds `tuple(sorted([name1, name2]))` (`simulation/__init__.py` line 77). -/
def sortedPair (x y : String) : String × String :=
  if x ≤ y then (x, y) else (y, x)

/-- The `unique_pairs` set built by
`ArenaHealthMetrics._calculate_engagement_density`
(`simulation/__init__.py` lines 74-78): a pair is added only when the
record has both an `agent_name` and a `target_agent` key; `agent_name`
is always present in the executor's records (it is a mandatory field of
`InteractionRecord`), so only the `target_agent` check can fail. -/
def uniquePairs (interactions : List InteractionRecord) : List (String × String) :=
  interactions.foldl
    (fun acc r =>
      match r.targetAgent with
      | some t =>
          let pr := sortedPair r.agentName t
          if pr ∈ acc then acc else acc ++ [pr]
      | none => acc)
    []

/-- Embeds `ArenaHealthMetrics._calculate_engagement_density`
(`simulation/__init__.py` lines 68-80): 0 for an empty interaction list,
otherwise the number of distinct unordered interacting pairs divided by
`max(len(interactions), 1)`. -/
def engagementDensity (interactions : List InteractionRecord) : ℚ :=
  if interactions.isEmpty then 0
  else (uniquePairs interactions).length / max interactions.length 1

lemma uniquePairs_foldl_of_no_target (l : List InteractionRecord)
    (h : ∀ r ∈ l, r.targetAgent = none) :
    ∀ acc : List (String × String),
      l.foldl
        (fun acc r =>
          match r.targetAgent with
          | some t =>
              let pr := sortedPair r.agentName t
              if pr ∈ acc then acc else acc ++ [pr]
          | none => acc)
        acc = acc := by
  induction l with
  | nil => intro acc; rfl
  | cons hd tl ih =>
      intro acc
      rw [List.foldl_cons]
      have hhd : hd.targetAgent = none := h hd (List.mem_cons_self hd tl)
      rw [hhd]
      exact ih (fun r hr => h r (List.mem_cons_of_mem hd hr)) acc

/-- C9: the interaction records produced by the round executor carry an
`agent_name` key but never a `target_agent` key, so the engagement
density computed over any list of such records is exactly 0. -/
theorem engagement_density_always_zero :
    (∀ a newOpinion tokensSpent reasoning objections suggestions influenceImpact,
        (mkProcessFeatureRecord a newOpinion tokensSpent reasoning objections
          suggestions influenceImpact).targetAgent = none) ∧
    (∀ l : List InteractionRecord,
        (∀ r ∈ l, r.targetAgent = none) → engagementDensity l = 0) := by
  constructor
  · intro a newOpinion tokensSpent reasoning objections suggestions influenceImpact
    rfl
  · intro l h
    unfold engagementDensity
    by_cases hempty : l.isEmpty
    · simp [hempty]
    · have hpairs : uniquePairs l = [] := uniquePairs_foldl_of_no_target l h []
      simp [hempty, hpairs]

/-- C9 witness: a singleton list holding a record built by
`process_feature` for agent `A` has engagement density 0. -/
theorem engagement_density_witness :
    engagementDensity [mkProcessFeatureRecord agentA (1 / 2) 15 "r" [] [] (1 / 2)] = 0 :=
  engagement_density_always_zero.2
    [mkProcessFeatureRecord agentA (1 / 2) 15 "r" [] [] (1 / 2)]
    (by
      intro r hr
      simp only [List.mem_singleton] at hr
      subst hr
      rfl)

/-- Embeds `EnhancedMockAI._calculate_attention_spend`
(`llm_integration.py` lines 389-409): base spend 15, +10 for a strong
opinion shift (`abs(feature_score) > 0.5`), +5 for competitors or +8 for
influencers, +5 for long descriptions (`len(description) > 100`), capped
at the agent's remaining attention tokens. -/
def calculateAttentionSpend (role : AgentType) (featureScore : ℚ)
    (descLen : ℕ) (attentionTokens : ℤ) : ℤ :=
  let base1 : ℤ := 15
  let base2 := if 1 / 2 < |featureScore| then base1 + 10 else base1
  let base3 :=
    if role = AgentType.competitor then base2 + 5
    else if role = AgentType.influencer then base2 + 8
    else base2
  let base4 := if 100 < descLen then base3 + 5 else base3
  min base4 attentionTokens

/-- Embeds `self.genome.attention_tokens -= analysis.attention_spent`
(`agents/__init__.py` line 95) with the fallback backend's
`attention_spent`. -/
def processFeatureTokens (role : AgentType) (featureScore : ℚ)
    (descLen : ℕ) (tokens : ℤ) : ℤ :=
  tokens - calculateAttentionSpend role featureScore descLen tokens

/-- The attention budget of one agent after processing a sequence of
features (any number of rounds and features flattened into one list of
(feature score, description length) pairs). -/
def runFeatures (role : AgentType) (tokens : ℤ) (features : List (ℚ × ℕ)) : ℤ :=
  features.foldl (fun t f => processFeatureTokens role f.1 f.2 t) tokens

/-- C10: under the heuristic fallback backend the attention spend is
capped at the remaining budget, so an attention budget that starts
nonnegative (100, or 150 for influencers) remains nonnegative after
every `process_feature` call, for any number of rounds and features. -/
theorem attention_tokens_never_negative :
    (∀ (role : AgentType) (featureScore : ℚ) (descLen : ℕ) (tokens : ℤ),
        calculateAttentionSpend role featureScore descLen tokens ≤ tokens) ∧
    (∀ (role : AgentType) (features : List (ℚ × ℕ)) (tokens : ℤ),
        0 ≤ tokens → 0 ≤ runFeatures role tokens features) := by
  constructor
  · intro role featureScore descLen tokens
    exact min_le_right _ _
  · intro role features
    induction features with
    | nil => intro tokens h; exact h
    | cons f rest ih =>
        intro tokens h
        rw [runFeatures, List.foldl_cons]
        exact ih _ (sub_nonneg.mpr (min_le_right _ _))

/-- C10 witness: an influencer starting at the initial budget 150
processing one strong-shift feature keeps a nonnegative budget. -/
theorem attention_tokens_witness :
    0 ≤ runFeatures AgentType.influencer 150 [(3 / 4, 50)] :=
  attention_tokens_never_negative.2 AgentType.influencer [(3 / 4, 50)] 150 (by norm_num)

end Dejavas
